import Mathlib

/-!
Shallow embedding of the GenWebAI virtual preview engine.

The definitions below are translated from the repository's TypeScript/JS
sources: the in-iframe router script and blob-URL materializer of the
preview page (src/unnamed/part_007), the manifest normalizer
`unescapeModelContent` (src/unnamed/part_000 and src/src/app/page.tsx),
and the `getPreviewSrcDoc` renderer (src/src/app/page.tsx).

JavaScript strings are modelled as Lean `String`; the handful of string
primitives the code uses (`startsWith`, `endsWith`, `split`, `join`,
`replace` with a global literal pattern, `slice(1,-1)`, lowercasing) are
implemented below on `List Char` so that concrete inputs evaluate by
`decide`.  Object URLs returned by `URL.createObjectURL` are opaque,
pairwise-distinct strings in the browser; they are modelled as `Nat`
identifiers allocated from a counter.
-/

/-- Bool test that `p` is a leading segment of `l` (JS `startsWith` on char
lists; also the matching step of JS `split`/`replace`). -/
def leadMatch : List Char → List Char → Bool
  | [], _ => true
  | _ :: _, [] => false
  | p :: ps, c :: cs => p = c && leadMatch ps cs

/-- JS `s.startsWith(p)`. -/
def jsStartsWith (s p : String) : Bool := leadMatch p.data s.data

/-- JS `s.endsWith(p)`. -/
def jsEndsWith (s p : String) : Bool := leadMatch p.data.reverse s.data.reverse

/-- One left-to-right, non-overlapping global replacement pass over a char
list, as JS `s.replace(/pat/g, rep)` performs for a literal pattern.  The
fuel argument is the length of the subject list (structural recursion so
that concrete inputs reduce in the kernel). -/
def replaceFuel : Nat → List Char → List Char → List Char → List Char
  | 0, l, _, _ => l
  | _ + 1, [], _, _ => []
  | fuel + 1, c :: rest, pat, rep =>
    if pat ≠ [] ∧ leadMatch pat (c :: rest) = true then
      rep ++ replaceFuel fuel ((c :: rest).drop pat.length) pat rep
    else
      c :: replaceFuel fuel rest pat rep

/-- JS `s.replace(/pat/g, rep)` for a literal pattern `pat`. -/
def jsReplace (s pat rep : String) : String :=
  ⟨replaceFuel s.data.length s.data pat.data rep.data⟩

/-- Splitting worker for JS `s.split(sep)` with a non-empty literal
separator.  `acc` holds the current segment reversed. -/
def splitFuel : Nat → List Char → List Char → List Char → List (List Char)
  | 0, l, _, acc => [acc.reverse ++ l]
  | _ + 1, [], _, acc => [acc.reverse]
  | fuel + 1, c :: rest, sep, acc =>
    if sep ≠ [] ∧ leadMatch sep (c :: rest) = true then
      acc.reverse :: splitFuel fuel ((c :: rest).drop sep.length) sep []
    else
      splitFuel fuel rest sep (c :: acc)

/-- JS `s.split(sep)` (non-empty separator). -/
def jsSplit (s sep : String) : List String :=
  (splitFuel s.data.length s.data sep.data []).map (fun l => ⟨l⟩)

/-- JS `arr.join(sep)`. -/
def jsJoin (sep : String) (l : List String) : String :=
  ⟨List.intercalate sep.data (l.map String.data)⟩

/-- ASCII lowercasing of one character, as the `/i` regex flag applies to
the ASCII file extensions tested by the code. -/
def lowerChar (c : Char) : Char :=
  if 'A' ≤ c ∧ c ≤ 'Z' then Char.ofNat (c.toNat + 32) else c

/-- ASCII-lowercased copy of a string. -/
def lowerStr (s : String) : String := ⟨s.data.map lowerChar⟩

/-- JS `s.slice(1, -1)`: drop the first and last character. -/
def jsSliceTrim (s : String) : String := ⟨(s.data.drop 1).dropLast⟩

/-- Manifest normalizer `unescapeModelContent` (src/unnamed/part_000 lines
152-169, identically src/src/app/page.tsx lines 759-768): collapse
double-escaped line breaks before single-escaped ones, unescape quotes and
backslashes, then strip one level of accidental wrapping quotes.  The JS
guard `if (!raw) return raw` is the empty-string test. -/
def unescapeModelContent (raw : String) : String :=
  if raw = "" then raw
  else
    let s1 := jsReplace raw "\\\\n" "\n"
    let s2 := jsReplace s1 "\\n" "\n"
    let s3 := jsReplace s2 "\\\"" "\""
    let s4 := jsReplace s3 "\\\\" "\\"
    if jsStartsWith s4 "\"" = true ∧ jsEndsWith s4 "\"" = true then jsSliceTrim s4
    else s4

/-- In-iframe path resolver `resolvePath` (src/unnamed/part_007 lines
480-493): a reference not starting with '.' is returned unchanged;
otherwise the directory of `currentPath` is taken and the reference's
segments are applied left to right, with `..` popping one level (JS
`pop()` on an empty array is a no-op) and `.` skipped. -/
def resolvePath (currentPath relativePath : String) : String :=
  if ¬ jsStartsWith relativePath "." = true then relativePath
  else
    let pathParts := (jsSplit currentPath "/").dropLast
    let relativeParts := jsSplit relativePath "/"
    let finalParts := relativeParts.foldl
      (fun acc part =>
        if part = ".." then acc.dropLast
        else if part = "." then acc
        else acc ++ [part])
      pathParts
    jsJoin "/" finalParts

/-- One file of a `ProjectManifest` (`GenerateWebsitePreviewOutput` file
shape: a logical path and its content). -/
structure FileEntry where
  path : String
  content : String
deriving DecidableEq

/-- A generated preview manifest (`GenerateWebsitePreviewOutput`):
project name, entry path and file list. -/
structure Preview where
  projectName : String
  entry : String
  files : List FileEntry
deriving DecidableEq

/-- Value of one base64 alphabet character. -/
def b64Val (c : Char) : Option Nat :=
  if 'A' ≤ c ∧ c ≤ 'Z' then some (c.toNat - 65)
  else if 'a' ≤ c ∧ c ≤ 'z' then some (c.toNat - 97 + 26)
  else if '0' ≤ c ∧ c ≤ '9' then some (c.toNat - 48 + 52)
  else if c = '+' then some 62
  else if c = '/' then some 63
  else none

/-- ASCII whitespace stripped by the browser's forgiving-base64 decode. -/
def isAsciiWs (c : Char) : Bool :=
  c = ' ' || c = '\t' || c = '\n' || c = Char.ofNat 12 || c = '\r'

/-- Remove up to two trailing padding characters. -/
def stripPad (l : List Char) : List Char :=
  match l.reverse with
  | '=' :: '=' :: rest => rest.reverse
  | '=' :: rest => rest.reverse
  | _ => l

/-- Map every character to its base64 value, failing on the first
character outside the alphabet (this is where `atob` throws). -/
def mapB64 : List Char → Option (List Nat)
  | [] => some []
  | c :: rest =>
    match b64Val c, mapB64 rest with
    | some v, some vs => some (v :: vs)
    | _, _ => none

/-- Reassemble 6-bit groups into bytes; a single leftover group is
invalid (input length 1 mod 4). -/
def b64Chunks : List Nat → Option (List Nat)
  | [] => some []
  | [_] => none
  | [a, b] => some [a * 4 + b / 16]
  | [a, b, c] => some [a * 4 + b / 16, (b % 16) * 16 + c / 4]
  | a :: b :: c :: d :: rest =>
    (b64Chunks rest).map
      (fun t => (a * 4 + b / 16) :: ((b % 16) * 16 + c / 4) :: ((c % 4) * 64 + d) :: t)

/-- Browser `atob` (WHATWG forgiving-base64): strip ASCII whitespace,
strip up to two trailing '=' when the length is a multiple of four,
reject length 1 mod 4 and any character outside the alphabet, decode the
rest to bytes.  `none` models the `InvalidCharacterError` throw. -/
def atobJS (s : String) : Option (List Nat) :=
  let l := s.data.filter (fun c => ¬ isAsciiWs c = true)
  let l := if l.length % 4 = 0 then stripPad l else l
  if l.length % 4 = 1 then none
  else (mapB64 l).bind b64Chunks

/-- MIME inference by extension in the blob-URL effect
(src/unnamed/part_007 lines 384-387). -/
def inferMime (path : String) : String :=
  if jsEndsWith path ".html" = true then "text/html"
  else if jsEndsWith path ".css" = true then "text/css"
  else if jsEndsWith path ".js" = true then "application/javascript"
  else "text/plain"

/-- The regex `/\.(png|jpe?g|gif|ico|svg)$/i` of src/unnamed/part_007
line 389. -/
def isBinaryPath (p : String) : Bool :=
  let q := lowerStr p
  jsEndsWith q ".png" || jsEndsWith q ".jpg" || jsEndsWith q ".jpeg" ||
    jsEndsWith q ".gif" || jsEndsWith q ".ico" || jsEndsWith q ".svg"

/-- Payload of one blob: decoded bytes for the binary branch, the raw
content string for the text branch. -/
inductive BlobData
  | bytes (bs : List Nat)
  | text (s : String)
deriving DecidableEq

/-- A materialized blob: MIME type plus payload. -/
structure Blob where
  mime : String
  data : BlobData
deriving DecidableEq

/-- Per-file blob construction of the effect body (src/unnamed/part_007
lines 384-403).  A binary-extension file whose content contains
';base64,' is decoded with `atob` on the segment after the first
';base64,' occurrence, taking the MIME type from `parts[0].split(':')[1]`
(the JS `undefined` that arises when there is no ':' yields an empty blob
type, modelled by the default "").  `none` models the uncaught `atob`
throw.  Every other file becomes a text blob with the inferred MIME
type. -/
def makeBlob (f : FileEntry) : Option Blob :=
  let mime := inferMime f.path
  let parts := jsSplit f.content ";base64,"
  if isBinaryPath f.path = true ∧ 2 ≤ parts.length then
    let binMime := (jsSplit ((parts.get? 0).getD "") ":").get? 1 |>.getD ""
    match atobJS ((parts.get? 1).getD "") with
    | none => none
    | some bs => some ⟨binMime, .bytes bs⟩
  else
    some ⟨mime, .text f.content⟩

/-- One entry of the mutable `blobUrls.current` object: a logical path,
the numeric identity of its object URL, and the blob behind it. -/
structure RefEntry where
  path : String
  id : Nat
  blob : Blob
deriving DecidableEq

/-- JS object property write `obj[path] = v`: overwrite in place if the
key exists (keys keep their first-insertion position), else append. -/
def upsertRef (l : List RefEntry) (e : RefEntry) : List RefEntry :=
  match l with
  | [] => [e]
  | x :: xs => if x.path = e.path then e :: xs else x :: upsertRef xs e

/-- Host-side materializer state: the `blobUrls.current` object, the
allocator for fresh object URLs, and the log of `URL.revokeObjectURL`
calls made so far (one entry per call, in order). -/
structure MatState where
  ref : List RefEntry
  nextId : Nat
  revoked : List Nat
deriving DecidableEq

/-- The `forEach` of the blob-URL effect (src/unnamed/part_007 lines
383-405): materialize each file in order, overwriting per path.  A file
whose decode throws stops the iteration with the exception propagating
(`true` flags the abort); entries already written stay in place. -/
def materializeFiles : List FileEntry → MatState → MatState × Bool
  | [], st => (st, false)
  | f :: rest, st =>
    match makeBlob f with
    | none => (st, true)
    | some b =>
      materializeFiles rest
        { st with ref := upsertRef st.ref ⟨f.path, st.nextId, b⟩, nextId := st.nextId + 1 }

/-- One run of the blob-URL effect body (src/unnamed/part_007 lines
377-406): revoke every URL currently held, reset the object, then
materialize the new preview's files (if any). -/
def runEffect (pre : Option Preview) (st : MatState) : MatState :=
  let st1 : MatState :=
    { st with revoked := st.revoked ++ st.ref.map RefEntry.id, ref := [] }
  match pre with
  | none => st1
  | some p => (materializeFiles p.files st1).1

/-- The effect's cleanup closure (src/unnamed/part_007 lines 408-413):
it captured the `blobUrls.current` object as the run left it and revokes
all of its values.  React runs it before the next effect run and on
unmount. -/
def runCleanup (snapshot : List RefEntry) (st : MatState) : MatState :=
  { st with revoked := st.revoked ++ snapshot.map RefEntry.id }

/-- Materializer state before the first effect run. -/
def initMatState : MatState := ⟨[], 0, []⟩

/-- States observed when generation `p1` is loaded and then replaced by
generation `p2`: the state after `p1`'s effect run, and the state after
`p1`'s cleanup (run first, per React) followed by `p2`'s effect run. -/
def genStates (p1 p2 : Preview) : MatState × MatState :=
  let st1 := runEffect (some p1) initMatState
  (st1, runEffect (some p2) (runCleanup st1.ref st1))

/-- The manifest the sandbox router holds (`fileManifest`): logical path
to object-URL identity, as posted by the host from `blobUrls.current`. -/
def refManifest (ref : List RefEntry) : List (String × Nat) :=
  ref.map (fun e => (e.path, e.id))

/-- JS object property read `fileManifest[path]` on a map with unique
keys.  Object-URL values are nonempty strings, so key presence is exactly
JS truthiness of the read. -/
def lookupAssoc (m : List (String × Nat)) (k : String) : Option Nat :=
  (m.find? (fun e => e.1 = k)).map (fun e => e.2)

/-- A URL string as seen in a rewritten attribute or an anchor's resolved
`href`: either one of the session's minted object URLs (scheme `blob:`,
textually unguessable, compared by identity) or any other plain string. -/
inductive Href
  | handle (h : Nat)
  | plain (s : String)
deriving DecidableEq

/-- One attribute rewrite of `rewriteLinks` (src/unnamed/part_007 lines
495-508): a nonempty value not starting with 'http', '#' or 'blob:' is
resolved against the base path and replaced by the manifest's handle when
present; in every other case `setAttribute` is not called and the value
stays as it was (the miss branch only logs a console warning). -/
def rewriteAttr (m : List (String × Nat)) (basePath v : String) : Href :=
  if v ≠ "" ∧ ¬ jsStartsWith v "http" = true ∧ ¬ jsStartsWith v "#" = true ∧
      ¬ jsStartsWith v "blob:" = true then
    match lookupAssoc m (resolvePath basePath v) with
    | some h => .handle h
    | none => .plain v
  else .plain v

/-- What the sandbox document shows after a router action. -/
inductive SandboxDoc
  | initial
  | notFound
  | page (path : String)
deriving DecidableEq

/-- Result of one `navigateTo` call: the `navigation-error` messages
posted to the host (by requested path) and the resulting document. -/
structure NavResult where
  messages : List String
  doc : SandboxDoc
deriving DecidableEq

/-- The router's `navigateTo` (src/unnamed/part_007 lines 510-540): a
path missing from the manifest posts exactly one `navigation-error`
message carrying it, replaces the body with the local 404 placeholder and
returns; a present path fetches the blob (which succeeds for a live
object URL), rewrites links and swaps in the new document. -/
def navigateToModel (m : List (String × Nat)) (path : String) : NavResult :=
  match lookupAssoc m path with
  | none => ⟨[path], .notFound⟩
  | some _ => ⟨[], .page path⟩

/-- The router's `file-manifest` message handler (src/unnamed/part_007
lines 556-562): a falsy `entry` field (absent or empty) defaults to
"index.html", then `navigateTo` runs on it. -/
def onFileManifestMessage (m : List (String × Nat)) (entry : Option String) :
    NavResult :=
  let entryPoint :=
    match entry with
    | some e => if e = "" then "index.html" else e
    | none => "index.html"
  navigateToModel m entryPoint

/-- Observable outcome of the router's window click handler. -/
structure ClickOutcome where
  defaultPrevented : Bool
  navigation : Option String
  historyPushes : List String
deriving DecidableEq

/-- The router's click listener (src/unnamed/part_007 lines 542-554): for
an anchor with a truthy `href` and a target other than `_blank`, a
`blob:`-scheme URL prevents default and navigates to the first manifest
key whose value is that URL; nothing is ever pushed onto any history. -/
def onClick (m : List (String × Nat)) (href : Href) (targetBlank : Bool) :
    ClickOutcome :=
  if targetBlank = true then ⟨false, none, []⟩
  else
    match href with
    | .handle h =>
      match m.find? (fun e => e.2 = h) with
      | some e => ⟨true, some e.1, []⟩
      | none => ⟨true, none, []⟩
    | .plain s =>
      if s = "" then ⟨false, none, []⟩
      else if jsStartsWith s "blob:" = true then ⟨true, none, []⟩
      else ⟨false, none, []⟩

/-- The window events the sandbox script subscribes to
(src/unnamed/part_007 lines 542 and 556); there is no popstate or
hashchange subscription. -/
def sandboxWindowListeners : List String := ["click", "message"]

/-- Host reaction to one iframe message (src/unnamed/part_007 lines
418-436). -/
inductive HostAction
  | postManifest
  | toastNavError (path : String)
  | hostNoOp
deriving DecidableEq

/-- `handleIframeMessage`: the manifest and entry are posted only in
reply to `iframe-ready`; `navigation-error` raises a destructive toast
with the failing path; anything else is ignored. -/
def handleIframeMessage (msgType : String) (path : String) : HostAction :=
  if msgType = "iframe-ready" then .postManifest
  else if msgType = "navigation-error" then .toastNavError path
  else .hostNoOp

/-- `getPreviewSrcDoc`'s initial cleaning pass (src/src/app/page.tsx
lines 783-786). -/
def cleanFiles (files : List FileEntry) : List FileEntry :=
  files.map (fun f => ⟨f.path, unescapeModelContent f.content⟩)

/-- Entry selection of `getPreviewSrcDoc` (src/src/app/page.tsx line
834): `cleanedFiles.find((f) => f.path === entryFile) || cleanedFiles[0]`. -/
def selectEntryFile (files : List FileEntry) (entry : String) :
    Option FileEntry :=
  match files.find? (fun f => f.path = entry) with
  | some f => some f
  | none => files.head?

/-- The regex `/\.(png|jpg|jpeg|gif|svg)$/i` of src/src/app/page.tsx line
796 (note: unlike the part_007 effect, no `.ico`). -/
def isBinaryPagePath (p : String) : Bool :=
  let q := lowerStr p
  jsEndsWith q ".png" || jsEndsWith q ".jpg" || jsEndsWith q ".jpeg" ||
    jsEndsWith q ".gif" || jsEndsWith q ".svg"

/-- Per-file value of `getPreviewSrcDoc`'s `blobMap` (src/src/app/page.tsx
lines 790-831) together with the next fresh object-URL id.  html/css/js
extensions win over the binary test (else-if chain); a binary-extension
file with a `data:` URI is decoded, falling back to storing the raw
content when `atob` throws (the `catch` branch); a binary file without a
`data:` prefix stores its content as-is in both sub-branches; everything
else becomes a text blob.  JS `atob(parts[1])` coerces a missing comma
segment to the string "undefined". -/
def pageFileValue (n : Nat) (f : FileEntry) : Href × Nat :=
  if jsEndsWith f.path ".html" = true ∨ jsEndsWith f.path ".css" = true ∨
      jsEndsWith f.path ".js" = true then
    (.handle n, n + 1)
  else if isBinaryPagePath f.path = true then
    if jsStartsWith f.content "data:" = true then
      match atobJS (((jsSplit f.content ",").get? 1).getD "undefined") with
      | some _ => (.handle n, n + 1)
      | none => (.plain f.content, n)
    else (.plain f.content, n)
  else (.handle n, n + 1)

/-- JS object write for the page blob map. -/
def upsertKV (l : List (String × Href)) (k : String) (v : Href) :
    List (String × Href) :=
  match l with
  | [] => [(k, v)]
  | x :: xs => if x.1 = k then (k, v) :: xs else x :: upsertKV xs k v

/-- The `forEach` building `blobMap` (src/src/app/page.tsx lines
790-831): every file writes exactly one value under its path; no branch
can throw. -/
def buildPageBlobMap : List FileEntry → Nat → List (String × Href) →
    List (String × Href)
  | [], _, m => m
  | f :: rest, n, m =>
    buildPageBlobMap rest (pageFileValue n f).2
      (upsertKV m f.path (pageFileValue n f).1)

/-- `blobMap` of `getPreviewSrcDoc` for a file list, after cleaning. -/
def pageBlobMapOf (files : List FileEntry) : List (String × Href) :=
  buildPageBlobMap (cleanFiles files) 0 []

/-- The manifest splice of `handleRegenerate` (src/unnamed/part_007 lines
339-346): map over the files, replacing the content of those whose path
equals the entry path, and keep every other field of the preview. -/
def spliceRegenerated (p : Preview) (newContent : String) : Preview :=
  { p with
    files := p.files.map
      (fun f => if f.path = p.entry then { f with content := newContent } else f) }

theorem replaceFuel_no_bs (fuel : Nat) (l pt rep : List Char) (h : '\\' ∉ l) :
    replaceFuel fuel l ('\\' :: pt) rep = l := by
  induction fuel generalizing l with
  | zero => rfl
  | succ n ih =>
    cases l with
    | nil => rfl
    | cons c rest =>
      have hc : ('\\' : Char) ≠ c := by
        intro hcc
        exact h (hcc ▸ List.mem_cons_self c rest)
      have hlm : leadMatch ('\\' :: pt) (c :: rest) = false := by
        simp [leadMatch, hc]
      rw [replaceFuel, if_neg]
      · rw [ih rest (fun hm => h (List.mem_cons_of_mem c hm))]
      · simp [hlm]

theorem jsReplace_no_bs (s rep : String) (pt : List Char) (h : '\\' ∉ s.data) :
    jsReplace s ⟨'\\' :: pt⟩ rep = s := by
  obtain ⟨l⟩ := s
  show (⟨replaceFuel l.length l ('\\' :: pt) rep.data⟩ : String) = ⟨l⟩
  rw [replaceFuel_no_bs _ _ _ _ h]

/-- C1 (amended): the resolver satisfies the spec's three dotted-path
equations, but a reference beginning with '/' is returned unchanged (the
resolver returns every reference that does not start with '.' as-is), so
`resolve("pages/about.html", "/logo.png")` is "/logo.png", not
"logo.png". -/
theorem resolvePath_literal_cases :
    resolvePath "pages/about.html" "./contact.html" = "pages/contact.html" ∧
    resolvePath "pages/about.html" "../index.html" = "index.html" ∧
    resolvePath "a/b/c.html" "../../x.html" = "x.html" ∧
    resolvePath "pages/about.html" "/logo.png" = "/logo.png" := by
  decide

/-- C1 counterexample: the spec's fourth literal equation fails — a
root-relative reference is not resolved against the VFS root. -/
theorem resolvePath_root_case_fails :
    resolvePath "pages/about.html" "/logo.png" ≠ "logo.png" := by
  decide

/-- C2 counterexample: escape-normalization is not idempotent.  On the
five-character string `""x""` one application strips one level of
wrapping quotes yielding `"x"`, and a second application strips another,
yielding `x`. -/
theorem unescape_not_idempotent :
    unescapeModelContent (unescapeModelContent "\"\"x\"\"") ≠
      unescapeModelContent "\"\"x\"\"" := by
  decide

/-- C2 (amended): escape-normalization is not idempotent in general —
each application can strip a further level of wrapping quotes (and of
backslash escaping).  It is the identity, hence idempotent, on every
string that contains no backslash and is not wrapped in quotes. -/
theorem unescape_fixed_point (s : String) (hb : '\\' ∉ s.data)
    (hq : ¬(jsStartsWith s "\"" = true ∧ jsEndsWith s "\"" = true)) :
    unescapeModelContent s = s ∧
    unescapeModelContent (unescapeModelContent s) = unescapeModelContent s := by
  have hfix : unescapeModelContent s = s := by
    by_cases hs : s = ""
    · simp [unescapeModelContent, hs]
    · have h1 : jsReplace s "\\\\n" "\n" = s := by
        rw [show ("\\\\n" : String) = ⟨'\\' :: ['\\', 'n']⟩ from rfl]
        exact jsReplace_no_bs s _ _ hb
      have h2 : jsReplace s "\\n" "\n" = s := by
        rw [show ("\\n" : String) = ⟨'\\' :: ['n']⟩ from rfl]
        exact jsReplace_no_bs s _ _ hb
      have h3 : jsReplace s "\\\"" "\"" = s := by
        rw [show ("\\\"" : String) = ⟨'\\' :: ['"']⟩ from rfl]
        exact jsReplace_no_bs s _ _ hb
      have h4 : jsReplace s "\\\\" "\\" = s := by
        rw [show ("\\\\" : String) = ⟨'\\' :: ['\\']⟩ from rfl]
        exact jsReplace_no_bs s _ _ hb
      unfold unescapeModelContent
      rw [if_neg hs]
      simp only [h1, h2, h3, h4]
      rw [if_neg hq]
  exact ⟨hfix, by rw [hfix, hfix]⟩

/-- Witness for the C2 amended theorem at the backslash-free, unquoted
string "abc". -/
theorem unescape_fixed_point_witness :
    unescapeModelContent "abc" = "abc" ∧
    unescapeModelContent (unescapeModelContent "abc") =
      unescapeModelContent "abc" :=
  unescape_fixed_point "abc" (by decide) (by decide)

/-- C7: a navigation request whose path is absent from the handle map
takes the early-return branch of `navigateTo`: it posts exactly one
`navigation-error` message carrying the requested path and replaces the
visible document with the local 404 placeholder.  `navigateToModel` is a
total function — no exception escapes this branch. -/
theorem navigateTo_missing_path (m : List (String × Nat)) (p : String)
    (h : lookupAssoc m p = none) :
    navigateToModel m p = ⟨[p], SandboxDoc.notFound⟩ := by
  simp [navigateToModel, h]

/-- Witness for C7 at a concrete one-entry manifest and absent path. -/
theorem navigateTo_missing_path_witness :
    lookupAssoc [("a.html", 0)] "b.html" = none ∧
    navigateToModel [("a.html", 0)] "b.html" =
      ⟨["b.html"], SandboxDoc.notFound⟩ :=
  ⟨by decide, navigateTo_missing_path [("a.html", 0)] "b.html" (by decide)⟩

/-- C9: splicing regenerated content into the current manifest keeps the
project name, the entry path and the number of files; every file whose
path differs from the entry path is kept identical (path and content),
and a file at the entry path keeps its path and receives the new
content. -/
theorem splice_changes_only_entry (p : Preview) (c : String) :
    (spliceRegenerated p c).projectName = p.projectName ∧
    (spliceRegenerated p c).entry = p.entry ∧
    (spliceRegenerated p c).files.length = p.files.length ∧
    ∀ (i : Nat) (f : FileEntry), p.files[i]? = some f →
      (f.path ≠ p.entry → (spliceRegenerated p c).files[i]? = some f) ∧
      (f.path = p.entry →
        (spliceRegenerated p c).files[i]? = some ⟨f.path, c⟩) := by
  refine ⟨rfl, rfl, by simp [spliceRegenerated], ?_⟩
  intro i f hf
  constructor
  · intro hne
    simp [spliceRegenerated, List.getElem?_map, hf, hne]
  · intro heq
    simp [spliceRegenerated, List.getElem?_map, hf, heq]

/-- Witness for C9 on a concrete two-file manifest: the entry file's
content is replaced, the other file is untouched. -/
theorem splice_changes_only_entry_witness :
    (spliceRegenerated ⟨"n", "i.html", [⟨"i.html", "a"⟩, ⟨"o.html", "b"⟩]⟩
        "new").files[1]? = some ⟨"o.html", "b"⟩ ∧
    (spliceRegenerated ⟨"n", "i.html", [⟨"i.html", "a"⟩, ⟨"o.html", "b"⟩]⟩
        "new").files[0]? = some ⟨"i.html", "new"⟩ :=
  ⟨((splice_changes_only_entry ⟨"n", "i.html",
      [⟨"i.html", "a"⟩, ⟨"o.html", "b"⟩]⟩ "new").2.2.2 1 ⟨"o.html", "b"⟩
      (by decide)).1 (by decide),
   ((splice_changes_only_entry ⟨"n", "i.html",
      [⟨"i.html", "a"⟩, ⟨"o.html", "b"⟩]⟩ "new").2.2.2 0 ⟨"i.html", "a"⟩
      (by decide)).2 (by decide)⟩

/-- C10: during link rewriting, an attribute value that starts with
'http', '#' or 'blob:', or whose resolved path has no handle-map entry,
is left exactly as it was (the code only logs a warning on a miss), and
an attribute is rewritten to a handle only when its resolved path has
that handle in the map. -/
theorem rewriteAttr_frame (m : List (String × Nat)) (basePath v : String) :
    ((jsStartsWith v "http" = true ∨ jsStartsWith v "#" = true ∨
        jsStartsWith v "blob:" = true ∨
        lookupAssoc m (resolvePath basePath v) = none) →
      rewriteAttr m basePath v = .plain v) ∧
    ∀ hnd, rewriteAttr m basePath v = .handle hnd →
      lookupAssoc m (resolvePath basePath v) = some hnd := by
  constructor
  · intro h
    unfold rewriteAttr
    split
    · rename_i hcond
      rcases h with h | h | h | h
      · exact absurd h hcond.2.1
      · exact absurd h hcond.2.2.1
      · exact absurd h hcond.2.2.2
      · rw [h]
    · rfl
  · intro hnd h
    unfold rewriteAttr at h
    split at h
    · revert h
      cases hlook : lookupAssoc m (resolvePath basePath v) with
      | none => intro h; cases h
      | some h' => intro h; cases h; rfl
    · cases h

/-- Witness for C10: a hash anchor is untouched, and a rewritten
reference indeed had a manifest entry. -/
theorem rewriteAttr_frame_witness :
    jsStartsWith "#top" "#" = true ∧
    rewriteAttr [("pages/x.html", 3)] "pages/about.html" "#top" =
      .plain "#top" ∧
    lookupAssoc [("pages/x.html", 3)]
      (resolvePath "pages/about.html" "./x.html") = some 3 :=
  ⟨by decide,
   (rewriteAttr_frame [("pages/x.html", 3)] "pages/about.html" "#top").1
     (Or.inr (Or.inl (by decide))),
   (rewriteAttr_frame [("pages/x.html", 3)] "pages/about.html" "./x.html").2 3
     (by decide)⟩

theorem cleanFiles_path_map (files : List FileEntry) :
    (cleanFiles files).map FileEntry.path = files.map FileEntry.path := by
  simp [cleanFiles, List.map_map, Function.comp]

/-- C4 counterexample: activating an internal link whose handle is in the
manifest does prevent default and navigate, but the click handler pushes
nothing onto any navigation history, and the sandbox script registers no
popstate (back) listener at all. -/
theorem click_pushes_no_history :
    (onClick [("about.html", 5)] (.handle 5) false).defaultPrevented = true ∧
    (onClick [("about.html", 5)] (.handle 5) false).navigation =
      some "about.html" ∧
    (onClick [("about.html", 5)] (.handle 5) false).historyPushes = [] ∧
    "popstate" ∉ sandboxWindowListeners := by
  decide

/-- C4 (amended): activating an internal link whose object URL is a value
of the handle map prevents default navigation and re-renders by calling
`navigateTo` on the matching path, but nothing is pushed onto the
navigation history, and no popstate handler exists to replay back events
(the script only listens for clicks and messages). -/
theorem click_navigates_without_history (m : List (String × Nat)) (h : Nat)
    (e : String × Nat) (hfind : m.find? (fun x => x.2 = h) = some e) :
    onClick m (.handle h) false = ⟨true, some e.1, []⟩ ∧
    "popstate" ∉ sandboxWindowListeners := by
  refine ⟨?_, by decide⟩
  simp [onClick, hfind]

/-- Witness for the C4 amended theorem at a one-link manifest. -/
theorem click_navigates_without_history_witness :
    List.find? (fun x => x.2 = 7) [("about.html", 7)] =
      some ("about.html", 7) ∧
    onClick [("about.html", 7)] (.handle 7) false =
      ⟨true, some "about.html", []⟩ ∧
    "popstate" ∉ sandboxWindowListeners :=
  ⟨by decide,
   (click_navigates_without_history [("about.html", 7)] 7 ("about.html", 7)
     (by decide)).1,
   (click_navigates_without_history [("about.html", 7)] 7 ("about.html", 7)
     (by decide)).2⟩

/-- C5 counterexample: when the manifest's entry path ("main.html") is a
nonempty string absent from the handle map, the router does not fall back
to the first file — it posts a navigation-error and renders the 404
placeholder instead. -/
theorem entry_missing_is_error :
    onFileManifestMessage [("a.html", 0)] (some "main.html") =
      ⟨["main.html"], SandboxDoc.notFound⟩ ∧
    (onFileManifestMessage [("a.html", 0)] (some "main.html")).doc ≠
      SandboxDoc.page "a.html" := by
  decide

/-- C5 (amended): the first-file fallback exists only in
`getPreviewSrcDoc`: there, an entry path absent from the files selects
the first (cleaned) file as de facto entry.  The message-driven router
has no such fallback — a nonempty entry absent from the handle map
produces exactly one navigation-error and the local 404 placeholder; only
a missing or empty entry field defaults, and then to "index.html". -/
theorem entry_fallback_split :
    (∀ (files : List FileEntry) (entry : String) (f0 : FileEntry),
        entry ∉ files.map FileEntry.path → files.head? = some f0 →
        selectEntryFile (cleanFiles files) entry =
          some ⟨f0.path, unescapeModelContent f0.content⟩) ∧
    (∀ (m : List (String × Nat)) (e : String), e ≠ "" →
        lookupAssoc m e = none →
        onFileManifestMessage m (some e) = ⟨[e], SandboxDoc.notFound⟩) := by
  constructor
  · intro files entry f0 hnm hhd
    unfold selectEntryFile
    have hfind : (cleanFiles files).find? (fun f => f.path = entry) = none := by
      rw [List.find?_eq_none]
      intro x hx
      simp only [decide_eq_true_eq]
      intro hxe
      apply hnm
      rw [← cleanFiles_path_map]
      rw [← hxe]
      exact List.mem_map_of_mem FileEntry.path hx
    rw [hfind]
    show (cleanFiles files).head? = _
    rw [cleanFiles, List.head?_map, hhd]
    rfl
  · intro m e hne hl
    simp [onFileManifestMessage, hne, navigateToModel, hl]

/-- Witness for the C5 amended theorem: a one-file manifest with a
missing entry path on both sides. -/
theorem entry_fallback_split_witness :
    selectEntryFile (cleanFiles [⟨"a.html", "x"⟩]) "main.html" =
      some ⟨"a.html", "x"⟩ ∧
    onFileManifestMessage [("about.html", 4)] (some "main.html") =
      ⟨["main.html"], SandboxDoc.notFound⟩ := by
  constructor
  · have h := entry_fallback_split.1 [⟨"a.html", "x"⟩] "main.html"
      ⟨"a.html", "x"⟩ (by decide) (by decide)
    simpa using h
  · exact entry_fallback_split.2 [("about.html", 4)] "main.html"
      (by decide) (by decide)

theorem upsertRef_mem {l : List RefEntry} {e x : RefEntry}
    (h : x ∈ upsertRef l e) : x = e ∨ x ∈ l := by
  induction l with
  | nil =>
    rw [upsertRef] at h
    exact Or.inl (List.mem_singleton.1 h)
  | cons y ys ih =>
    rw [upsertRef] at h
    split at h
    · rcases List.mem_cons.1 h with h1 | h1
      · exact Or.inl h1
      · exact Or.inr (List.mem_cons_of_mem y h1)
    · rcases List.mem_cons.1 h with h1 | h1
      · exact Or.inr (h1 ▸ List.mem_cons_self y ys)
      · rcases ih h1 with h2 | h2
        · exact Or.inl h2
        · exact Or.inr (List.mem_cons_of_mem y h2)

theorem upsertRef_path_mem (l : List RefEntry) (e : RefEntry) (s : String) :
    s ∈ (upsertRef l e).map RefEntry.path ↔
      s = e.path ∨ s ∈ l.map RefEntry.path := by
  induction l with
  | nil => simp [upsertRef, eq_comm]
  | cons y ys ih =>
    rw [upsertRef]
    split
    · rename_i hyp
      simp only [List.map_cons, List.mem_cons]
      rw [hyp]
      tauto
    · simp only [List.map_cons, List.mem_cons, ih]
      tauto

theorem upsertRef_path_nodup (l : List RefEntry) (e : RefEntry)
    (h : (l.map RefEntry.path).Nodup) :
    ((upsertRef l e).map RefEntry.path).Nodup := by
  induction l with
  | nil => simp [upsertRef]
  | cons y ys ih =>
    rw [List.map_cons, List.nodup_cons] at h
    rw [upsertRef]
    split
    · rename_i hyp
      rw [List.map_cons, List.nodup_cons]
      exact ⟨hyp ▸ h.1, h.2⟩
    · rename_i hyp
      rw [List.map_cons, List.nodup_cons]
      refine ⟨?_, ih h.2⟩
      intro hmem
      rcases (upsertRef_path_mem ys e y.path).1 hmem with h1 | h1
      · exact hyp h1
      · exact h.1 h1

theorem upsertRef_id_mem (l : List RefEntry) (e : RefEntry) (n : Nat)
    (h : n ∈ (upsertRef l e).map RefEntry.id) :
    n = e.id ∨ n ∈ l.map RefEntry.id := by
  rcases List.mem_map.1 h with ⟨x, hx, hxn⟩
  rcases upsertRef_mem hx with h1 | h1
  · subst h1
    exact Or.inl hxn.symm
  · exact Or.inr (hxn ▸ List.mem_map_of_mem RefEntry.id h1)

theorem upsertRef_id_nodup {l : List RefEntry} {e : RefEntry}
    (hnd : (l.map RefEntry.id).Nodup) (hfresh : e.id ∉ l.map RefEntry.id) :
    ((upsertRef l e).map RefEntry.id).Nodup := by
  induction l with
  | nil => simp [upsertRef]
  | cons y ys ih =>
    rw [List.map_cons, List.nodup_cons] at hnd
    rw [List.map_cons, List.mem_cons] at hfresh
    push_neg at hfresh
    rw [upsertRef]
    split
    · rw [List.map_cons, List.nodup_cons]
      exact ⟨hfresh.2, hnd.2⟩
    · rw [List.map_cons, List.nodup_cons]
      refine ⟨?_, ih hnd.2 hfresh.2⟩
      intro hm
      rcases upsertRef_id_mem ys e y.id hm with h1 | h1
      · exact hfresh.1 h1.symm
      · exact hnd.1 h1

/-- JS object property read on the materializer's map (unique keys). -/
def findRef (l : List RefEntry) (k : String) : Option RefEntry :=
  l.find? (fun x => x.path = k)

theorem findRef_upsert (l : List RefEntry) (e : RefEntry) (k : String) :
    findRef (upsertRef l e) k =
      if e.path = k then some e else findRef l k := by
  induction l with
  | nil =>
    rw [upsertRef]
    by_cases hek : e.path = k
    · simp [findRef, List.find?, hek]
    · simp [findRef, List.find?, hek]
  | cons y ys ih =>
    rw [upsertRef]
    split
    · rename_i hyk
      by_cases hek : e.path = k
      · simp [findRef, List.find?, hek]
      · have hyk2 : ¬(y.path = k) := by rw [hyk]; exact hek
        simp [findRef, List.find?, hek, hyk2]
    · rename_i hyk
      by_cases hyk2 : y.path = k
      · have hek : ¬(e.path = k) := by
          intro hek
          exact hyk (hyk2.trans hek.symm)
        simp [findRef, List.find?, hyk2, hek]
      · simp only [findRef, List.find?] at ih ⊢
        rw [show (decide (y.path = k)) = false by simp [hyk2]]
        exact ih

theorem findRef_of_mem_nodup {l : List RefEntry} {e : RefEntry}
    (hnd : (l.map RefEntry.path).Nodup) (he : e ∈ l) :
    findRef l e.path = some e := by
  induction l with
  | nil => cases he
  | cons y ys ih =>
    rw [List.map_cons, List.nodup_cons] at hnd
    rcases List.mem_cons.1 he with h1 | h1
    · subst h1
      simp [findRef, List.find?]
    · by_cases hyk : y.path = e.path
      · exact absurd (hyk ▸ List.mem_map_of_mem RefEntry.path h1) hnd.1
      · simp only [findRef, List.find?]
        rw [show (decide (y.path = e.path)) = false by simp [hyk]]
        exact ih hnd.2 h1

theorem getLast?_cons_of_ne {α : Type} (a : α) (l : List α) (h : l ≠ []) :
    (a :: l).getLast? = l.getLast? := by
  cases l with
  | nil => exact absurd rfl h
  | cons b bs => exact List.getLast?_cons_cons

theorem mat_step (f : FileEntry) (rest : List FileEntry)
    (r : List RefEntry) (n : Nat) (v : List Nat) (b : Blob)
    (hb : makeBlob f = some b) :
    materializeFiles (f :: rest) ⟨r, n, v⟩ =
      materializeFiles rest ⟨upsertRef r ⟨f.path, n, b⟩, n + 1, v⟩ := by
  simp only [materializeFiles, hb]

theorem mat_step_abort (f : FileEntry) (rest : List FileEntry)
    (r : List RefEntry) (n : Nat) (v : List Nat)
    (hb : makeBlob f = none) :
    materializeFiles (f :: rest) ⟨r, n, v⟩ = (⟨r, n, v⟩, true) := by
  simp only [materializeFiles, hb]

theorem mat_inv (fs : List FileEntry) (r : List RefEntry) (n : Nat)
    (v : List Nat) (h : ∀ e ∈ r, e.id < n) :
    (∀ e ∈ (materializeFiles fs ⟨r, n, v⟩).1.ref,
       e.id < (materializeFiles fs ⟨r, n, v⟩).1.nextId) ∧
    n ≤ (materializeFiles fs ⟨r, n, v⟩).1.nextId ∧
    (materializeFiles fs ⟨r, n, v⟩).1.revoked = v := by
  induction fs generalizing r n v with
  | nil => exact ⟨h, le_refl _, rfl⟩
  | cons f rest ih =>
    cases hb : makeBlob f with
    | none =>
      rw [mat_step_abort f rest r n v hb]
      exact ⟨h, le_refl _, rfl⟩
    | some b =>
      rw [mat_step f rest r n v b hb]
      have h' : ∀ e ∈ upsertRef r ⟨f.path, n, b⟩, e.id < n + 1 := by
        intro e he
        rcases upsertRef_mem he with h1 | h1
        · subst h1
          exact Nat.lt_succ_self _
        · exact Nat.lt_succ_of_lt (h e h1)
      obtain ⟨o1, o2, o3⟩ := ih (upsertRef r ⟨f.path, n, b⟩) (n + 1) v h'
      exact ⟨o1, le_trans (Nat.le_succ _) o2, o3⟩

theorem mat_lo (fs : List FileEntry) (r : List RefEntry) (n : Nat)
    (v : List Nat) (lo : Nat) (h1 : ∀ e ∈ r, lo ≤ e.id) (h2 : lo ≤ n) :
    ∀ e ∈ (materializeFiles fs ⟨r, n, v⟩).1.ref, lo ≤ e.id := by
  induction fs generalizing r n v with
  | nil => exact h1
  | cons f rest ih =>
    cases hb : makeBlob f with
    | none =>
      rw [mat_step_abort f rest r n v hb]
      exact h1
    | some b =>
      rw [mat_step f rest r n v b hb]
      refine ih _ _ _ ?_ (le_trans h2 (Nat.le_succ _))
      intro e he
      rcases upsertRef_mem he with hx | hx
      · subst hx
        exact h2
      · exact h1 e hx

theorem mat_id_nodup (fs : List FileEntry) (r : List RefEntry) (n : Nat)
    (v : List Nat) (hinv : ∀ e ∈ r, e.id < n)
    (hnd : (r.map RefEntry.id).Nodup) :
    ((materializeFiles fs ⟨r, n, v⟩).1.ref.map RefEntry.id).Nodup := by
  induction fs generalizing r n v with
  | nil => exact hnd
  | cons f rest ih =>
    cases hb : makeBlob f with
    | none =>
      rw [mat_step_abort f rest r n v hb]
      exact hnd
    | some b =>
      rw [mat_step f rest r n v b hb]
      have hfresh : n ∉ r.map RefEntry.id := by
        intro hm
        rcases List.mem_map.1 hm with ⟨x, hx, hxn⟩
        exact absurd (hxn ▸ hinv x hx) (lt_irrefl _)
      refine ih _ _ _ ?_ (upsertRef_id_nodup hnd hfresh)
      intro e he
      rcases upsertRef_mem he with hx | hx
      · subst hx
        exact Nat.lt_succ_self _
      · exact Nat.lt_succ_of_lt (hinv e hx)

theorem mat_paths_nodup (fs : List FileEntry) (r : List RefEntry) (n : Nat)
    (v : List Nat) (h : (r.map RefEntry.path).Nodup) :
    ((materializeFiles fs ⟨r, n, v⟩).1.ref.map RefEntry.path).Nodup := by
  induction fs generalizing r n v with
  | nil => exact h
  | cons f rest ih =>
    cases hb : makeBlob f with
    | none =>
      rw [mat_step_abort f rest r n v hb]
      exact h
    | some b =>
      rw [mat_step f rest r n v b hb]
      exact ih _ _ _ (upsertRef_path_nodup _ _ h)

theorem mat_paths_mem (fs : List FileEntry) (r : List RefEntry) (n : Nat)
    (v : List Nat) (hall : ∀ f ∈ fs, (makeBlob f).isSome = true) (s : String) :
    s ∈ (materializeFiles fs ⟨r, n, v⟩).1.ref.map RefEntry.path ↔
      s ∈ r.map RefEntry.path ∨ s ∈ fs.map FileEntry.path := by
  induction fs generalizing r n v with
  | nil => simp [materializeFiles]
  | cons f rest ih =>
    rcases Option.isSome_iff_exists.1
      (hall f (List.mem_cons_self f rest)) with ⟨b, hb⟩
    rw [mat_step f rest r n v b hb]
    rw [ih _ _ _ (fun x hx => hall x (List.mem_cons_of_mem f hx))]
    rw [upsertRef_path_mem]
    simp only [List.map_cons, List.mem_cons]
    tauto

theorem mat_find_skip (fs : List FileEntry) (r : List RefEntry) (n : Nat)
    (v : List Nat) (k : String) (hk : ∀ f ∈ fs, f.path ≠ k) :
    findRef (materializeFiles fs ⟨r, n, v⟩).1.ref k = findRef r k := by
  induction fs generalizing r n v with
  | nil => rfl
  | cons f rest ih =>
    cases hb : makeBlob f with
    | none =>
      rw [mat_step_abort f rest r n v hb]
    | some b =>
      rw [mat_step f rest r n v b hb]
      rw [ih _ _ _ (fun x hx => hk x (List.mem_cons_of_mem f hx))]
      rw [findRef_upsert]
      exact if_neg (hk f (List.mem_cons_self f rest))

theorem mat_find_last (fs : List FileEntry) (r : List RefEntry) (n : Nat)
    (v : List Nat) (k : String)
    (hall : ∀ f ∈ fs, (makeBlob f).isSome = true) (f : FileEntry)
    (hlast : (fs.filter (fun g => g.path = k)).getLast? = some f) :
    ∃ e, findRef (materializeFiles fs ⟨r, n, v⟩).1.ref k = some e ∧
      e.path = k ∧ makeBlob f = some e.blob := by
  induction fs generalizing r n v with
  | nil => simp at hlast
  | cons g rest ih =>
    rcases Option.isSome_iff_exists.1
      (hall g (List.mem_cons_self g rest)) with ⟨b, hb⟩
    rw [mat_step g rest r n v b hb]
    by_cases hgk : g.path = k
    · rw [List.filter_cons, if_pos (by simpa using hgk)] at hlast
      by_cases hre : rest.filter (fun x => x.path = k) = []
      · rw [show rest.filter (fun x => decide (x.path = k)) = [] from hre] at hlast
        have hf : f = g := by
          simp only [List.getLast?_singleton, Option.some.injEq] at hlast
          exact hlast.symm
        subst hf
        rw [mat_find_skip rest _ _ _ k
          (fun x hx hxk =>
            (List.filter_eq_nil_iff.1 hre) x hx (by simpa using hxk))]
        rw [findRef_upsert, if_pos hgk]
        exact ⟨⟨f.path, n, b⟩, rfl, hgk, hb⟩
      · rw [getLast?_cons_of_ne g _ hre] at hlast
        exact ih _ _ _ (fun x hx => hall x (List.mem_cons_of_mem g hx)) hlast
    · rw [List.filter_cons, if_neg (by simpa using hgk)] at hlast
      exact ih _ _ _ (fun x hx => hall x (List.mem_cons_of_mem g hx)) hlast

/-- C3 counterexample: replacing a one-file generation by another, the
object URL of generation 1 (id 0) is revoked twice — once by the React
effect cleanup and once by the sweep at the start of the next effect
run — not exactly once as claimed. -/
theorem handle_released_twice_not_once :
    0 ∈ (genStates ⟨"p", "i.html", [⟨"i.html", "a"⟩]⟩
        ⟨"p", "i.html", [⟨"i.html", "b"⟩]⟩).1.ref.map RefEntry.id ∧
    ((genStates ⟨"p", "i.html", [⟨"i.html", "a"⟩]⟩
        ⟨"p", "i.html", [⟨"i.html", "b"⟩]⟩).2.revoked.count 0 ≠ 1) := by
  decide

/-- C3 (amended): after generation N+1's effect run, every handle held in
generation N's map has been released exactly twice (cleanup plus the next
run's initial sweep) — so none leaks, but none is released exactly once —
and the new map no longer holds it.  The host re-sends the handle map to
the router only in reply to an `iframe-ready` message, so the router is
not automatically switched to the new generation's handles. -/
theorem blob_handles_double_release (p1 p2 : Preview) (hnd : Nat)
    (h : hnd ∈ (genStates p1 p2).1.ref.map RefEntry.id) :
    ((genStates p1 p2).2.revoked.count hnd = 2) ∧
    hnd ∉ (genStates p1 p2).2.ref.map RefEntry.id ∧
    (∀ t pth, handleIframeMessage t pth = HostAction.postManifest →
      t = "iframe-ready") := by
  have hg1 : (genStates p1 p2).1 = (materializeFiles p1.files ⟨[], 0, []⟩).1 :=
    rfl
  have hg2 : (genStates p1 p2).2 =
      (materializeFiles p2.files
        ⟨[], (materializeFiles p1.files ⟨[], 0, []⟩).1.nextId,
          ((materializeFiles p1.files ⟨[], 0, []⟩).1.revoked ++
              (materializeFiles p1.files ⟨[], 0, []⟩).1.ref.map RefEntry.id) ++
            (materializeFiles p1.files ⟨[], 0, []⟩).1.ref.map RefEntry.id⟩).1 :=
    rfl
  rw [hg1] at h
  obtain ⟨inv1, hle1, hrev1⟩ :=
    mat_inv p1.files [] 0 [] (fun e he => absurd he (List.not_mem_nil e))
  have hnodup1 :=
    mat_id_nodup p1.files [] 0 []
      (fun e he => absurd he (List.not_mem_nil e)) List.nodup_nil
  have hlt : hnd < (materializeFiles p1.files ⟨[], 0, []⟩).1.nextId := by
    rcases List.mem_map.1 h with ⟨x, hx, hxn⟩
    exact hxn ▸ inv1 x hx
  obtain ⟨inv2, hle2, hrev2⟩ :=
    mat_inv p2.files [] (materializeFiles p1.files ⟨[], 0, []⟩).1.nextId
      (((materializeFiles p1.files ⟨[], 0, []⟩).1.revoked ++
          (materializeFiles p1.files ⟨[], 0, []⟩).1.ref.map RefEntry.id) ++
        (materializeFiles p1.files ⟨[], 0, []⟩).1.ref.map RefEntry.id)
      (fun e he => absurd he (List.not_mem_nil e))
  have hlo2 :=
    mat_lo p2.files [] (materializeFiles p1.files ⟨[], 0, []⟩).1.nextId
      (((materializeFiles p1.files ⟨[], 0, []⟩).1.revoked ++
          (materializeFiles p1.files ⟨[], 0, []⟩).1.ref.map RefEntry.id) ++
        (materializeFiles p1.files ⟨[], 0, []⟩).1.ref.map RefEntry.id)
      (materializeFiles p1.files ⟨[], 0, []⟩).1.nextId
      (fun e he => absurd he (List.not_mem_nil e)) (le_refl _)
  refine ⟨?_, ?_, ?_⟩
  · rw [hg2, hrev2, hrev1, List.nil_append, List.count_append,
      List.count_eq_one_of_mem hnodup1 h]
  · rw [hg2]
    intro hmem2
    rcases List.mem_map.1 hmem2 with ⟨x, hx, hxn⟩
    have hge := hlo2 x hx
    rw [hxn] at hge
    exact absurd (lt_of_lt_of_le hlt hge) (lt_irrefl _)
  · intro t pth hmsg
    by_cases ht : t = "iframe-ready"
    · exact ht
    · exfalso
      unfold handleIframeMessage at hmsg
      rw [if_neg ht] at hmsg
      by_cases ht2 : t = "navigation-error"
      · rw [if_pos ht2] at hmsg
        cases hmsg
      · rw [if_neg ht2] at hmsg
        cases hmsg

/-- Witness for the C3 amended theorem on two concrete one-file
generations: handle 0 of generation 1 is revoked exactly twice and is
gone from the new map. -/
theorem blob_handles_double_release_witness :
    0 ∈ (genStates ⟨"q", "x.html", [⟨"x.html", "one"⟩]⟩
        ⟨"q", "x.html", [⟨"x.html", "two"⟩]⟩).1.ref.map RefEntry.id ∧
    (((genStates ⟨"q", "x.html", [⟨"x.html", "one"⟩]⟩
        ⟨"q", "x.html", [⟨"x.html", "two"⟩]⟩).2.revoked.count 0 = 2) ∧
      0 ∉ (genStates ⟨"q", "x.html", [⟨"x.html", "one"⟩]⟩
        ⟨"q", "x.html", [⟨"x.html", "two"⟩]⟩).2.ref.map RefEntry.id ∧
      (∀ t pth, handleIframeMessage t pth = HostAction.postManifest →
        t = "iframe-ready")) :=
  ⟨by decide,
   blob_handles_double_release ⟨"q", "x.html", [⟨"x.html", "one"⟩]⟩
     ⟨"q", "x.html", [⟨"x.html", "two"⟩]⟩ 0 (by decide)⟩

/-- C8 counterexample: a one-file manifest whose single (binary) entry
holds malformed base64 aborts materialization, so the built map has zero
nodes although the manifest has one unique path. -/
theorem corrupt_manifest_builds_no_nodes :
    (runEffect (some ⟨"p", "a.png", [⟨"a.png", "data:image/png;base64,?"⟩]⟩)
        initMatState).ref.length ≠
      (([⟨"a.png", "data:image/png;base64,?"⟩] : List FileEntry).map
          FileEntry.path).dedup.length := by
  decide

/-- C8 (amended): for every manifest all of whose entries materialize
(no binary entry with malformed base64), the built handle map has
pairwise-distinct paths, holds exactly the manifest's paths, has as many
nodes as the manifest has unique paths, and each node's blob is the one
of the last file entry bearing that path (last write wins). -/
theorem build_nodes_unique_last_wins (p : Preview)
    (hall : ∀ f ∈ p.files, (makeBlob f).isSome = true) :
    ((runEffect (some p) initMatState).ref.map RefEntry.path).Nodup ∧
    (∀ s, s ∈ (runEffect (some p) initMatState).ref.map RefEntry.path ↔
      s ∈ p.files.map FileEntry.path) ∧
    (runEffect (some p) initMatState).ref.length =
      (p.files.map FileEntry.path).dedup.length ∧
    ∀ e ∈ (runEffect (some p) initMatState).ref,
      ∃ f, (p.files.filter (fun g => g.path = e.path)).getLast? = some f ∧
        makeBlob f = some e.blob := by
  have hre : runEffect (some p) initMatState =
      (materializeFiles p.files ⟨[], 0, []⟩).1 := rfl
  rw [hre]
  have hnodup := mat_paths_nodup p.files [] 0 [] List.nodup_nil
  have hmem : ∀ s,
      s ∈ (materializeFiles p.files ⟨[], 0, []⟩).1.ref.map RefEntry.path ↔
        s ∈ p.files.map FileEntry.path := by
    intro s
    rw [mat_paths_mem p.files [] 0 [] hall s]
    simp
  refine ⟨hnodup, hmem, ?_, ?_⟩
  · have hd2 := List.nodup_dedup (p.files.map FileEntry.path)
    have hperm :
        List.Perm
          ((materializeFiles p.files ⟨[], 0, []⟩).1.ref.map RefEntry.path)
          ((p.files.map FileEntry.path).dedup) :=
      (List.perm_ext_iff_of_nodup hnodup hd2).2
        (fun a => by rw [hmem a, List.mem_dedup])
    have hlen := hperm.length_eq
    rwa [List.length_map] at hlen
  · intro e he
    have hmemp : e.path ∈ p.files.map FileEntry.path :=
      (hmem e.path).1 (List.mem_map_of_mem RefEntry.path he)
    rcases List.mem_map.1 hmemp with ⟨f0, hf0, hf0e⟩
    cases hg : (p.files.filter (fun g => g.path = e.path)).getLast? with
    | none =>
      exfalso
      rw [List.getLast?_eq_none_iff] at hg
      exact (List.filter_eq_nil_iff.1 hg) f0 hf0 (by simpa using hf0e)
    | some f =>
      obtain ⟨e2, hfind2, hpath2, hblob2⟩ :=
        mat_find_last p.files [] 0 [] e.path hall f hg
      have hfind :
          findRef (materializeFiles p.files ⟨[], 0, []⟩).1.ref e.path =
            some e :=
        findRef_of_mem_nodup hnodup he
      rw [hfind] at hfind2
      injection hfind2 with he2
      subst he2
      exact ⟨f, rfl, hblob2⟩

/-- Witness for the C8 amended theorem: a manifest duplicating one path
materializes to a single node carrying the last entry's content. -/
theorem build_nodes_unique_last_wins_witness :
    (∀ f ∈ ([⟨"i.html", "one"⟩, ⟨"i.html", "two"⟩] : List FileEntry),
      (makeBlob f).isSome = true) ∧
    (runEffect (some ⟨"p", "i.html",
        [⟨"i.html", "one"⟩, ⟨"i.html", "two"⟩]⟩) initMatState).ref.length =
      ((([⟨"i.html", "one"⟩, ⟨"i.html", "two"⟩] : List FileEntry)).map
          FileEntry.path).dedup.length :=
  ⟨by decide,
   (build_nodes_unique_last_wins
      ⟨"p", "i.html", [⟨"i.html", "one"⟩, ⟨"i.html", "two"⟩]⟩
      (by decide)).2.2.1⟩

theorem upsertKV_key_mem (m : List (String × Href)) (k : String) (v : Href)
    (k2 : String) :
    k2 ∈ (upsertKV m k v).map Prod.fst ↔ k2 = k ∨ k2 ∈ m.map Prod.fst := by
  induction m with
  | nil => simp [upsertKV, eq_comm]
  | cons y ys ih =>
    rw [upsertKV]
    split
    · rename_i hyp
      simp only [List.map_cons, List.mem_cons]
      rw [← hyp]
      tauto
    · simp only [List.map_cons, List.mem_cons, ih]
      tauto

theorem buildPage_key_mem (fs : List FileEntry) (n : Nat)
    (m : List (String × Href)) (k : String)
    (h : k ∈ m.map Prod.fst ∨ k ∈ fs.map FileEntry.path) :
    k ∈ (buildPageBlobMap fs n m).map Prod.fst := by
  induction fs generalizing n m with
  | nil =>
    rcases h with h | h
    · exact h
    · simp at h
  | cons f rest ih =>
    rw [buildPageBlobMap]
    apply ih
    rcases h with h | h
    · left
      rw [upsertKV_key_mem]
      exact Or.inr h
    · rw [List.map_cons, List.mem_cons] at h
      rcases h with h1 | h1
      · left
        rw [upsertKV_key_mem]
        exact Or.inl h1
      · right
        exact h1

/-- C6 counterexample: in the blob-URL effect, a manifest whose middle
binary entry holds malformed base64 keeps the entry built before it but
never materializes the entry after it — one bad asset aborts the rest of
the build instead of failing alone. -/
theorem corrupt_asset_aborts_rest :
    "a.html" ∈ (runEffect (some ⟨"p", "a.html",
        [⟨"a.html", "x"⟩, ⟨"b.png", "data:image/png;base64,?"⟩,
         ⟨"c.html", "y"⟩]⟩) initMatState).ref.map RefEntry.path ∧
    "c.html" ∉ (runEffect (some ⟨"p", "a.html",
        [⟨"a.html", "x"⟩, ⟨"b.png", "data:image/png;base64,?"⟩,
         ⟨"c.html", "y"⟩]⟩) initMatState).ref.map RefEntry.path := by
  decide

/-- C6 (amended): the two renderers differ.  In the blob-URL effect
(part_007) the first entry whose decode throws stops materialization:
entries before it stay, every entry after it is skipped.  In
`getPreviewSrcDoc` (page.tsx) every entry still obtains a map value —
a malformed base64 data URI falls back to storing the raw content, so
one bad asset never prevents the other entries from materializing
there. -/
theorem corrupt_asset_split_behavior :
    (∀ (pre post : List FileEntry) (f : FileEntry) (st : MatState),
        (∀ g ∈ pre, (makeBlob g).isSome = true) → makeBlob f = none →
        materializeFiles (pre ++ f :: post) st =
          ((materializeFiles pre st).1, true)) ∧
    (∀ (files : List FileEntry) (f : FileEntry), f ∈ files →
        f.path ∈ (pageBlobMapOf files).map Prod.fst) := by
  constructor
  · intro pre post f st hpre hf
    induction pre generalizing st with
    | nil =>
      simp only [List.nil_append, materializeFiles, hf]
    | cons g rest ih =>
      rcases Option.isSome_iff_exists.1
        (hpre g (List.mem_cons_self g rest)) with ⟨b, hb⟩
      simp only [List.cons_append, materializeFiles, hb]
      exact ih _ (fun x hx => hpre x (List.mem_cons_of_mem g hx))
  · intro files f hf
    apply buildPage_key_mem
    right
    rw [cleanFiles_path_map]
    exact List.mem_map_of_mem FileEntry.path hf

/-- Witness for the C6 amended theorem: the abort equation at a concrete
three-entry list, and the page map still holding a corrupt entry's
path. -/
theorem corrupt_asset_split_behavior_witness :
    materializeFiles
        ([⟨"a.html", "x"⟩] ++ ⟨"b.png", "data:image/png;base64,?"⟩ ::
          [⟨"c.html", "y"⟩]) initMatState =
      ((materializeFiles [⟨"a.html", "x"⟩] initMatState).1, true) ∧
    "b.png" ∈ (pageBlobMapOf [⟨"b.png", "data:image/png;base64,?"⟩]).map
      Prod.fst :=
  ⟨corrupt_asset_split_behavior.1 [⟨"a.html", "x"⟩] [⟨"c.html", "y"⟩]
      ⟨"b.png", "data:image/png;base64,?"⟩ initMatState
      (by decide) (by decide),
   corrupt_asset_split_behavior.2 [⟨"b.png", "data:image/png;base64,?"⟩]
      ⟨"b.png", "data:image/png;base64,?"⟩ (by decide)⟩
